import Mathlib

/-
Verification of the analysis-orchestration core of the AI-Chess-Assistant
repository. The definitions below are shallow embeddings of the TypeScript
classes AnalysisManager (src/core/analysis.manager.ts), EngineService
(src/services/engine.service.ts, both variants present in the file) and
ChessAssistant (src/content/assistant.ts). Instants are modelled as natural
numbers (milliseconds); the ISO-string round trip of entry timestamps is
order-preserving, so comparison of parsed dates is comparison of these
numbers. Calls that read the wall clock take the current instant as an
explicit argument. Externally observable side effects such as posting a
stop message to the worker or terminating the worker are recorded in
explicit counters of the engine state.
-/

/-- One engine report, mirroring the AnalysisEntry record of the source:
move string, centipawn score or null, search depth, finality flag and the
creation instant written by addEntry. -/
structure AnalysisEntry where
  move : String
  score : Option Int
  depth : Nat
  isFinal : Bool
  timestamp : Nat
deriving Repr, DecidableEq

/-- The mutable fields of the AnalysisManager class. -/
structure AnalysisManager where
  history : List AnalysisEntry
  lastBestMove : Option String
  moveRepetitionCount : Nat
  lastOpponentMoveTimestamp : Option Nat
deriving Repr, DecidableEq

/-- MAX_HISTORY_SIZE constant of analysis.manager.ts. -/
def MAX_HISTORY_SIZE : Nat := 100

/-- MAX_REPETITION_COUNT constant of analysis.manager.ts. -/
def MAX_REPETITION_COUNT : Nat := 3

/-- REPETITION_DEPTH_THRESHOLD constant of analysis.manager.ts. -/
def REPETITION_DEPTH_THRESHOLD : Nat := 20

/-- DEFAULT_ENGINE_CONFIG.autoPlayDepth of engine.types.ts. -/
def autoPlayDepth : Nat := 2

/-- DEFAULT_ENGINE_CONFIG.defaultDepth of engine.types.ts. -/
def defaultDepth : Nat := 15

/-- Field values of a freshly constructed AnalysisManager. -/
def initialManager : AnalysisManager :=
  { history := [], lastBestMove := none, moveRepetitionCount := 0,
    lastOpponentMoveTimestamp := none }

/-- The duplicate test of addEntry: the most recent entry, when it exists,
has the same depth and the same move as the incoming report. -/
def isDuplicate (history : List AnalysisEntry) (move : String) (depth : Nat) : Bool :=
  match history with
  | [] => false
  | e :: _ => e.depth == depth && e.move == move

/-- The acceptance tail of addEntry: unshift the new entry, then pop the
last element when the length exceeds MAX_HISTORY_SIZE. -/
def pushEntry (st : AnalysisManager) (move : String) (score : Option Int)
    (depth : Nat) (isFinal : Bool) (now : Nat) : AnalysisManager :=
  { st with history :=
      if MAX_HISTORY_SIZE <
          ({ move := move, score := score, depth := depth, isFinal := isFinal,
             timestamp := now } :: st.history).length then
        ({ move := move, score := score, depth := depth, isFinal := isFinal,
           timestamp := now } :: st.history).dropLast
      else
        { move := move, score := score, depth := depth, isFinal := isFinal,
          timestamp := now } :: st.history }

/-- AnalysisManager.addEntry. The checks appear in source order: falsy-field
validation, depth range, duplicate test, repetition counter, acceptance.
The returned boolean is the accepted flag of the source. -/
def addEntry (st : AnalysisManager) (move : String) (score : Option Int)
    (depth : Nat) (isFinal : Bool) (now : Nat) : Bool × AnalysisManager :=
  if move = "" ∨ score = none ∨ depth = 0 then (false, st)
  else if depth < 1 ∨ 26 < depth then (false, st)
  else if isDuplicate st.history move depth then (false, st)
  else if st.lastBestMove = some move then
    if MAX_REPETITION_COUNT ≤ st.moveRepetitionCount + 1 ∧
        REPETITION_DEPTH_THRESHOLD ≤ depth then
      (false, { st with moveRepetitionCount := st.moveRepetitionCount + 1 })
    else
      (true, pushEntry { st with moveRepetitionCount := st.moveRepetitionCount + 1 }
        move score depth isFinal now)
  else
    (true, pushEntry { st with lastBestMove := some move, moveRepetitionCount := 1 }
      move score depth isFinal now)

/-- AnalysisManager.getHistory returns a copy of the history array. -/
def getHistory (st : AnalysisManager) : List AnalysisEntry := st.history

/-- AnalysisManager.clearHistory. -/
def clearHistory (st : AnalysisManager) : AnalysisManager :=
  { st with history := [], lastBestMove := none, moveRepetitionCount := 0 }

/-- AnalysisManager.getLatestBestMove: the first final entry, else the most
recent entry, else null. -/
def getLatestBestMove (st : AnalysisManager) : Option String :=
  match st.history.find? (fun e => e.isFinal) with
  | some e => some e.move
  | none => st.history.head?.map (fun e => e.move)

/-- AnalysisManager.getLatestScore: the score of the most recent entry,
null when absent or itself null. -/
def getLatestScore (st : AnalysisManager) : Option Int :=
  st.history.head?.bind (fun e => e.score)

/-- AnalysisManager.recordOpponentMove with the current instant passed in. -/
def recordOpponentMove (st : AnalysisManager) (now : Nat) : AnalysisManager :=
  { st with lastOpponentMoveTimestamp := some now }

/-- AnalysisManager.getValidMovesForAutoPlay: empty when no opponent move
is recorded, otherwise the entries strictly after that instant with the
exact target depth. -/
def getValidMovesForAutoPlay (st : AnalysisManager) (targetDepth : Nat) :
    List AnalysisEntry :=
  match st.lastOpponentMoveTimestamp with
  | none => []
  | some t =>
    st.history.filter (fun e => decide (t < e.timestamp) && decide (e.depth = targetDepth))

/-- The comparator used by getAnyValidMoveForAutoPlay: final entries first,
then deeper entries first. True means the first argument sorts no later
than the second. -/
def autoPlayPreference (a b : AnalysisEntry) : Bool :=
  if a.isFinal && !b.isFinal then true
  else if !a.isFinal && b.isFinal then false
  else b.depth ≤ a.depth

/-- Ordered insertion used to model the in-place array sort. -/
def insertLe (le : AnalysisEntry → AnalysisEntry → Bool) (a : AnalysisEntry) :
    List AnalysisEntry → List AnalysisEntry
  | [] => [a]
  | b :: bs => if le a b then a :: b :: bs else b :: insertLe le a bs

/-- Stable insertion sort modelling Array.prototype.sort with a comparator. -/
def sortEntries (le : AnalysisEntry → AnalysisEntry → Bool) :
    List AnalysisEntry → List AnalysisEntry
  | [] => []
  | a :: as => insertLe le a (sortEntries le as)

/-- AnalysisManager.getAnyValidMoveForAutoPlay: most recent entry when no
opponent move is recorded; otherwise the best entry among those strictly
after the recorded instant, sorted by finality then depth; falling back to
the most recent entry overall when nothing qualifies. -/
def getAnyValidMoveForAutoPlay (st : AnalysisManager) : Option AnalysisEntry :=
  match st.lastOpponentMoveTimestamp with
  | none => st.history.head?
  | some t =>
    match st.history.filter (fun e => decide (t < e.timestamp)) with
    | [] => st.history.head?
    | v :: vs => (sortEntries autoPlayPreference (v :: vs)).head?

/-- AnalysisManager.shouldStopAnalysis, defined in the source and called
from nowhere. -/
def shouldStopAnalysis (st : AnalysisManager) : Bool :=
  decide (MAX_REPETITION_COUNT ≤ st.moveRepetitionCount) &&
    decide (REPETITION_DEPTH_THRESHOLD ≤
      ((st.history.head?.map (fun e => e.depth)).getD 0))

/-- One addEntry request, for reasoning about arbitrary call sequences. -/
structure AddRequest where
  move : String
  score : Option Int
  depth : Nat
  isFinal : Bool
  now : Nat
deriving Repr, DecidableEq

/-- Run a sequence of addEntry calls from a given manager state. -/
def runRequests (st : AnalysisManager) : List AddRequest → AnalysisManager
  | [] => st
  | r :: rs => runRequests (addEntry st r.move r.score r.depth r.isFinal r.now).2 rs

/-- EngineState union type of engine.types.ts. -/
inductive EngineState where
  | idle
  | analyzing
  | stopped
  | error
deriving Repr, DecidableEq

/-- The mutable fields of the EngineService class. The workerAlive flag
models whether the worker reference is non-null; stopMessages counts the
stop messages posted to the worker and workerTerminations counts the
worker terminate calls, so that these externally observable effects can be
stated. -/
structure EngineService where
  workerAlive : Bool
  state : EngineState
  currentBestMove : Option String
  currentScore : Option Int
  currentDepth : Nat
  stopMessages : Nat
  workerTerminations : Nat
deriving Repr, DecidableEq

/-- An EngineService directly after a successful initialize call: worker
created, accumulator fields at their constructor defaults. -/
def freshEngine : EngineService :=
  { workerAlive := true, state := EngineState.idle, currentBestMove := none,
    currentScore := none, currentDepth := 0, stopMessages := 0,
    workerTerminations := 0 }

/-- EngineService.stop: posts a stop message only while a worker exists and
the state is analyzing; a no-op otherwise. -/
def EngineService.stop (e : EngineService) : EngineService :=
  if e.workerAlive ∧ e.state = EngineState.analyzing then
    { e with stopMessages := e.stopMessages + 1, state := EngineState.stopped }
  else e

/-- EngineService.terminate: tears the worker down when one exists, nulls
the reference and returns the state to idle; a no-op otherwise. -/
def EngineService.terminate (e : EngineService) : EngineService :=
  if e.workerAlive then
    { e with workerTerminations := e.workerTerminations + 1,
             workerAlive := false, state := EngineState.idle }
  else e

/-- The accumulator update performed by EngineService.handleInfo once the
score, depth and pv regular expressions have all matched. -/
def handleInfoAccum (e : EngineService) (move : String) (score : Int)
    (depth : Nat) : EngineService :=
  { e with currentScore := some score, currentDepth := depth,
           currentBestMove := some move }

/-- The payload of an emitted bestmove event. The move token is optional
because the second handleBestMove variant forwards the raw token even when
the message had no second token. -/
structure BestMoveData where
  bestMoveToken : Option String
  score : Option Int
  depth : Nat
deriving Repr, DecidableEq

/-- EngineService.handleBestMove, first variant (the one with the guard):
the message is given as its token list, as produced by splitting the
protocol line on spaces. A missing, empty or literal no-move token makes
the handler return without emitting anything. -/
def handleBestMove (e : EngineService) (messageParts : List String) :
    EngineService × Option BestMoveData :=
  match messageParts.get? 1 with
  | none => (e, none)
  | some bm =>
    if bm = "" ∨ bm = "(none)" then (e, none)
    else
      ({ e with currentBestMove := some bm, state := EngineState.idle },
       some { bestMoveToken := some bm, score := e.currentScore, depth := e.currentDepth })

/-- EngineService.handleBestMove, second variant (engine.service.ts, second
class in the file): no guard at all — the second token, whatever it is, is
stored and an event is emitted. -/
def handleBestMoveNoGuard (e : EngineService) (messageParts : List String) :
    EngineService × Option BestMoveData :=
  ({ e with currentBestMove := messageParts.get? 1, state := EngineState.idle },
   some { bestMoveToken := messageParts.get? 1, score := e.currentScore,
          depth := e.currentDepth })

/-- The mutable fields of the ChessAssistant class that the orchestration
logic reads and writes, with the engine service and analysis manager
inlined. The pollingActive flag models a non-null polling interval handle
and intervalClears counts the clearInterval calls on it. -/
structure ChessAssistant where
  engine : EngineService
  analysisManager : AnalysisManager
  isActive : Bool
  autoPlayActive : Bool
  pollingActive : Bool
  intervalClears : Nat
  waitingForOpponentMove : Bool
deriving Repr, DecidableEq

/-- ChessAssistant.stopBoardPolling: clears the interval only when one is
set. -/
def stopBoardPolling (s : ChessAssistant) : ChessAssistant :=
  if s.pollingActive then
    { s with pollingActive := false, intervalClears := s.intervalClears + 1 }
  else s

/-- ChessAssistant.deactivate: stop polling, terminate the engine, clear
highlights (an external fire-and-forget renderer call, out of the modelled
state), reset the activity flags, clear the analysis history and show the
inactive panel (external). -/
def deactivate (s : ChessAssistant) : ChessAssistant :=
  { stopBoardPolling s with
      engine := (stopBoardPolling s).engine.terminate,
      isActive := false,
      autoPlayActive := false,
      analysisManager := clearHistory s.analysisManager }

/-- The decision taken by ChessAssistant.executeAutoPlay. -/
inductive AutoPlayOutcome where
  | inactive
  | gameOverDisable
  | execute (entry : AnalysisEntry)
  | noMove
deriving Repr, DecidableEq

/-- ChessAssistant.executeAutoPlay: return early when autoplay is off;
when the external game-over detector fires, disable autoplay and play
nothing; otherwise take the first depth-matched valid move, else the
fallback entry, and hand its move to the external move executor only when
the move string is truthy. The post-execution settle callback is timing
behaviour and not part of the selection modelled here. -/
def executeAutoPlay (gameOver : Bool) (s : ChessAssistant) :
    AutoPlayOutcome × ChessAssistant :=
  if s.autoPlayActive = false then (AutoPlayOutcome.inactive, s)
  else if gameOver then
    (AutoPlayOutcome.gameOverDisable, { s with autoPlayActive := false })
  else
    match getValidMovesForAutoPlay s.analysisManager autoPlayDepth with
    | e :: _ =>
      if e.move = "" then (AutoPlayOutcome.noMove, s)
      else (AutoPlayOutcome.execute e, s)
    | [] =>
      match getAnyValidMoveForAutoPlay s.analysisManager with
      | some e =>
        if e.move = "" then (AutoPlayOutcome.noMove, s)
        else (AutoPlayOutcome.execute e, s)
      | none => (AutoPlayOutcome.noMove, s)

/-- ChessAssistant.handleEngineUpdate: read the engine accumulator getters,
return when no best move is known, feed the values to addEntry with the
accepted flag discarded, update the panel and highlights (external), and
when autoplay is active on a final event outside the waiting phase, run
executeAutoPlay. No path posts a stop message to the engine. -/
def handleEngineUpdate (s : ChessAssistant) (isFinal : Bool) (gameOver : Bool)
    (now : Nat) : ChessAssistant :=
  match s.engine.currentBestMove with
  | none => s
  | some move =>
    if s.autoPlayActive ∧ isFinal = true ∧ s.waitingForOpponentMove = false then
      (executeAutoPlay gameOver
        { s with analysisManager :=
            (addEntry s.analysisManager move s.engine.currentScore
              s.engine.currentDepth isFinal now).2 }).2
    else
      { s with analysisManager :=
          (addEntry s.analysisManager move s.engine.currentScore
            s.engine.currentDepth isFinal now).2 }

/-- Delivery of one info engine event: the accumulator update of handleInfo
followed by the subscribed listener running handleEngineUpdate with a
non-final event. -/
def processInfoEvent (s : ChessAssistant) (move : String) (score : Int)
    (depth : Nat) (gameOver : Bool) (now : Nat) : ChessAssistant :=
  handleEngineUpdate
    { s with engine := handleInfoAccum s.engine move score depth }
    false gameOver now

/-- A ChessAssistant directly after activation: engine initialized,
polling started, autoplay off. -/
def activatedAssistant : ChessAssistant :=
  { engine := freshEngine, analysisManager := initialManager,
    isActive := true, autoPlayActive := false, pollingActive := true,
    intervalClears := 0, waitingForOpponentMove := false }

/-- A manager already holding a full history of MAX_HISTORY_SIZE entries,
used to exercise the eviction branch on a concrete input. -/
def mgr100 : AnalysisManager :=
  { history := List.replicate 100
      { move := "a2a3", score := some 0, depth := 5, isFinal := false, timestamp := 0 },
    lastBestMove := none, moveRepetitionCount := 0,
    lastOpponentMoveTimestamp := none }

/-- An entry timestamped after the recorded opponent move of mgrC3. -/
def entryAfter : AnalysisEntry :=
  { move := "e2e4", score := some 10, depth := 5, isFinal := false, timestamp := 20 }

/-- A manager whose history mixes entries before and after the recorded
opponent move at instant 10. -/
def mgrC3 : AnalysisManager :=
  { history := [entryAfter,
      { move := "d2d4", score := some 1, depth := 5, isFinal := false, timestamp := 5 }],
    lastBestMove := none, moveRepetitionCount := 0,
    lastOpponentMoveTimestamp := some 10 }

/-- A manager with a single recorded entry, for the duplicate test. -/
def mgrC6 : AnalysisManager :=
  { history := [{ move := "e2e4", score := some 10, depth := 12, isFinal := false, timestamp := 1 }],
    lastBestMove := some "e2e4", moveRepetitionCount := 1,
    lastOpponentMoveTimestamp := none }

/-- A manager with history but no recorded opponent move. -/
def mgrC10 : AnalysisManager :=
  { history := [{ move := "g1f3", score := some 3, depth := 8, isFinal := false, timestamp := 4 }],
    lastBestMove := some "g1f3", moveRepetitionCount := 1,
    lastOpponentMoveTimestamp := none }

/-- A ChessAssistant with autoplay enabled, used by the C4 witness. -/
def sC4 : ChessAssistant := { activatedAssistant with autoPlayActive := true }

theorem mem_insertLe {le : AnalysisEntry → AnalysisEntry → Bool} {x a : AnalysisEntry} :
    ∀ {l : List AnalysisEntry}, x ∈ insertLe le a l → x = a ∨ x ∈ l := by
  intro l
  induction l with
  | nil => intro h; simp [insertLe] at h; exact Or.inl h
  | cons b bs ih =>
    intro h
    unfold insertLe at h
    split at h
    · rcases List.mem_cons.mp h with h | h
      · exact Or.inl h
      · exact Or.inr h
    · rcases List.mem_cons.mp h with h | h
      · exact Or.inr (by simp [h])
      · rcases ih h with h2 | h2
        · exact Or.inl h2
        · exact Or.inr (List.mem_cons_of_mem b h2)

theorem mem_sortEntries {le : AnalysisEntry → AnalysisEntry → Bool} {x : AnalysisEntry} :
    ∀ {l : List AnalysisEntry}, x ∈ sortEntries le l → x ∈ l := by
  intro l
  induction l with
  | nil => intro h; simp [sortEntries] at h
  | cons a as ih =>
    intro h
    unfold sortEntries at h
    rcases mem_insertLe h with h2 | h2
    · simp [h2]
    · exact List.mem_cons_of_mem a (ih h2)

theorem addEntry_rejected_eq (st : AnalysisManager) (m : String) (s : Option Int)
    (d : Nat) (f : Bool) (now : Nat)
    (h : (addEntry st m s d f now).1 = false) :
    (addEntry st m s d f now).2.history = st.history ∧
    (addEntry st m s d f now).2.lastBestMove = st.lastBestMove ∧
    (addEntry st m s d f now).2.lastOpponentMoveTimestamp = st.lastOpponentMoveTimestamp := by
  unfold addEntry at h ⊢
  split_ifs at h ⊢ <;> simp_all [pushEntry]

theorem addEntry_accepted_history (st : AnalysisManager) (m : String) (s : Option Int)
    (d : Nat) (f : Bool) (now : Nat)
    (h : (addEntry st m s d f now).1 = true) :
    (addEntry st m s d f now).2.history =
      if MAX_HISTORY_SIZE < st.history.length + 1 then
        ({ move := m, score := s, depth := d, isFinal := f, timestamp := now }
          :: st.history).dropLast
      else
        { move := m, score := s, depth := d, isFinal := f, timestamp := now }
          :: st.history := by
  unfold addEntry at h ⊢
  split_ifs at h ⊢ <;> simp_all [pushEntry]

theorem addEntry_accepted_valid (st : AnalysisManager) (m : String) (s : Option Int)
    (d : Nat) (f : Bool) (now : Nat)
    (h : (addEntry st m s d f now).1 = true) :
    m ≠ "" ∧ s ≠ none ∧ 1 ≤ d ∧ d ≤ 26 := by
  unfold addEntry at h
  split_ifs at h with h1 h2 h3 h4 h5 <;> try simp at h
  all_goals push_neg at h1 h2
  all_goals exact ⟨h1.1, h1.2.1, h2.1, h2.2⟩

theorem addEntry_length_le (st : AnalysisManager) (m : String) (s : Option Int)
    (d : Nat) (f : Bool) (now : Nat)
    (h : st.history.length ≤ MAX_HISTORY_SIZE) :
    (addEntry st m s d f now).2.history.length ≤ MAX_HISTORY_SIZE := by
  by_cases hacc : (addEntry st m s d f now).1 = true
  · rw [addEntry_accepted_history st m s d f now hacc]
    split_ifs with hlen
    · simp only [List.length_dropLast, List.length_cons]
      omega
    · simp only [List.length_cons]
      omega
  · rw [Bool.not_eq_true] at hacc
    rw [(addEntry_rejected_eq st m s d f now hacc).1]
    exact h

theorem runRequests_length_le (reqs : List AddRequest) :
    ∀ st : AnalysisManager, st.history.length ≤ MAX_HISTORY_SIZE →
    (runRequests st reqs).history.length ≤ MAX_HISTORY_SIZE := by
  induction reqs with
  | nil => intro st h; exact h
  | cons r rs ih =>
    intro st h
    exact ih _ (addEntry_length_le st r.move r.score r.depth r.isFinal r.now h)

theorem runRequests_moves_nonempty (reqs : List AddRequest) :
    ∀ st : AnalysisManager, (∀ e ∈ st.history, e.move ≠ "") →
    ∀ e ∈ (runRequests st reqs).history, e.move ≠ "" := by
  induction reqs with
  | nil => intro st h; exact h
  | cons r rs ih =>
    intro st h
    apply ih
    intro e he
    by_cases hacc : (addEntry st r.move r.score r.depth r.isFinal r.now).1 = true
    · rw [addEntry_accepted_history st r.move r.score r.depth r.isFinal r.now hacc] at he
      have hm := (addEntry_accepted_valid st r.move r.score r.depth r.isFinal r.now hacc).1
      split_ifs at he with hlen
      · rcases List.mem_cons.mp (List.dropLast_subset _ he) with h2 | h2
        · rw [h2]; exact hm
        · exact h e h2
      · rcases List.mem_cons.mp he with h2 | h2
        · rw [h2]; exact hm
        · exact h e h2
    · rw [Bool.not_eq_true] at hacc
      rw [(addEntry_rejected_eq st r.move r.score r.depth r.isFinal r.now hacc).1] at he
      exact h e he

/-- C2: starting from an empty AnalysisManager, every finite sequence of
addEntry calls leaves the history length at most MAX_HISTORY_SIZE; an
accepted entry below capacity is prepended with nothing evicted, and an
accepted entry at capacity is prepended while exactly the oldest (last)
entry is dropped, so the sequence stays most-recent-first. -/
theorem bounded_history_fifo :
    (∀ reqs : List AddRequest,
      (runRequests initialManager reqs).history.length ≤ MAX_HISTORY_SIZE)
  ∧ (∀ (st : AnalysisManager) (m : String) (s : Option Int) (d : Nat) (f : Bool) (now : Nat),
      (addEntry st m s d f now).1 = true →
      (st.history.length < MAX_HISTORY_SIZE →
        (addEntry st m s d f now).2.history =
          { move := m, score := s, depth := d, isFinal := f, timestamp := now }
            :: st.history)
      ∧ (st.history.length = MAX_HISTORY_SIZE →
        (addEntry st m s d f now).2.history =
          { move := m, score := s, depth := d, isFinal := f, timestamp := now }
            :: st.history.dropLast)) := by
  constructor
  · intro reqs
    exact runRequests_length_le reqs initialManager (by simp [initialManager])
  · intro st m s d f now hacc
    rw [addEntry_accepted_history st m s d f now hacc]
    constructor
    · intro hlt
      rw [if_neg (by omega)]
    · intro heq
      rw [if_pos (by omega)]
      cases hh : st.history with
      | nil =>
        rw [hh] at heq
        simp [MAX_HISTORY_SIZE] at heq
      | cons b t =>
        rfl

/-- C2 witness: a concrete accepted call on a manager holding exactly 100
entries prepends the new entry and drops the oldest one. -/
theorem bounded_history_fifo_witness :
    (addEntry mgr100 "e2e4" (some 10) 9 false 7).1 = true ∧
    mgr100.history.length = MAX_HISTORY_SIZE ∧
    (addEntry mgr100 "e2e4" (some 10) 9 false 7).2.history =
      { move := "e2e4", score := some 10, depth := 9, isFinal := false, timestamp := 7 }
        :: mgr100.history.dropLast :=
  ⟨by decide, by decide,
    (bounded_history_fifo.2 mgr100 "e2e4" (some 10) 9 false 7 (by decide)).2 (by decide)⟩

/-- C5 counterexample: a final entry with a non-empty move and depth 15,
inside the configured range, is rejected when its score is null, contrary
to the claim that the missing-score rejection applies only to non-final
entries. -/
theorem final_null_score_rejected_cex :
    addEntry initialManager "e2e4" none 15 true 0 = (false, initialManager) := by
  decide

/-- C5 amended: a null score causes rejection unconditionally, final or
not — the validation of addEntry does not exempt final entries, so a
bestmove arriving before any info line is silently dropped. -/
theorem null_score_always_rejected (st : AnalysisManager) (m : String)
    (d : Nat) (now : Nat) :
    addEntry st m none d true now = (false, st) := by
  unfold addEntry
  rw [if_pos (Or.inr (Or.inl rfl))]

/-- C6: when the most recent entry has move m and depth d, a further
addEntry call with the same move and depth returns rejected and leaves the
whole manager state, in particular the history, unchanged. -/
theorem duplicate_rejected (st : AnalysisManager) (e : AnalysisEntry)
    (rest : List AnalysisEntry) (s : Option Int) (f : Bool) (now : Nat)
    (h : st.history = e :: rest) :
    addEntry st e.move s e.depth f now = (false, st) := by
  unfold addEntry
  rw [h]
  simp only [isDuplicate, beq_self_eq_true, Bool.and_self]
  split_ifs <;> rfl

/-- C6 witness: the concrete duplicate of the most recent (move, depth)
pair of mgrC6 is rejected and the state is untouched. -/
theorem duplicate_rejected_witness :
    addEntry mgrC6 "e2e4" (some 11) 12 true 2 = (false, mgrC6) :=
  duplicate_rejected mgrC6
    { move := "e2e4", score := some 10, depth := 12, isFinal := false, timestamp := 1 }
    [] (some 11) true 2 rfl

/-- C9: whenever addEntry returns rejected, the stored history and every
derived query — getHistory, getLatestBestMove, getLatestScore — and the
tracked last best move and opponent-move instant are exactly unchanged;
only the repetition counter may have advanced. -/
theorem rejection_atomicity (st : AnalysisManager) (m : String) (s : Option Int)
    (d : Nat) (f : Bool) (now : Nat)
    (h : (addEntry st m s d f now).1 = false) :
    getHistory (addEntry st m s d f now).2 = getHistory st ∧
    getLatestBestMove (addEntry st m s d f now).2 = getLatestBestMove st ∧
    getLatestScore (addEntry st m s d f now).2 = getLatestScore st ∧
    (addEntry st m s d f now).2.lastBestMove = st.lastBestMove ∧
    (addEntry st m s d f now).2.lastOpponentMoveTimestamp = st.lastOpponentMoveTimestamp := by
  obtain ⟨h1, h2, h3⟩ := addEntry_rejected_eq st m s d f now h
  exact ⟨by simp [getHistory, h1], by simp [getLatestBestMove, h1],
    by simp [getLatestScore, h1], h2, h3⟩

/-- C9 witness: the rejected empty-move call on the fresh manager changes
no observable query result. -/
theorem rejection_atomicity_witness :
    (addEntry initialManager "" none 0 false 0).1 = false ∧
    (getHistory (addEntry initialManager "" none 0 false 0).2 = getHistory initialManager ∧
     getLatestBestMove (addEntry initialManager "" none 0 false 0).2 =
       getLatestBestMove initialManager ∧
     getLatestScore (addEntry initialManager "" none 0 false 0).2 =
       getLatestScore initialManager ∧
     (addEntry initialManager "" none 0 false 0).2.lastBestMove =
       initialManager.lastBestMove ∧
     (addEntry initialManager "" none 0 false 0).2.lastOpponentMoveTimestamp =
       initialManager.lastOpponentMoveTimestamp) :=
  ⟨by decide, rejection_atomicity initialManager "" none 0 false 0 (by decide)⟩

/-- C10: while no opponent move is recorded, getValidMovesForAutoPlay is
empty for every target depth, while getAnyValidMoveForAutoPlay returns the
most recent history entry when one exists and none otherwise. -/
theorem no_opponent_move_fallback (st : AnalysisManager) (d : Nat)
    (h : st.lastOpponentMoveTimestamp = none) :
    getValidMovesForAutoPlay st d = [] ∧
    getAnyValidMoveForAutoPlay st = st.history.head? ∧
    (st.history = [] → getAnyValidMoveForAutoPlay st = none) ∧
    (∀ (e : AnalysisEntry) (rest : List AnalysisEntry),
      st.history = e :: rest → getAnyValidMoveForAutoPlay st = some e) := by
  refine ⟨?_, ?_, ?_, ?_⟩
  · simp [getValidMovesForAutoPlay, h]
  · simp [getAnyValidMoveForAutoPlay, h]
  · intro he
    simp [getAnyValidMoveForAutoPlay, h, he]
  · intro e rest he
    simp [getAnyValidMoveForAutoPlay, h, he]

/-- C10 witness: with no recorded opponent move, the depth filter is empty
while the fallback returns the single most recent entry of mgrC10. -/
theorem no_opponent_move_fallback_witness :
    getValidMovesForAutoPlay mgrC10 2 = [] ∧
    getAnyValidMoveForAutoPlay mgrC10 = mgrC10.history.head? ∧
    (mgrC10.history = [] → getAnyValidMoveForAutoPlay mgrC10 = none) ∧
    (∀ (e : AnalysisEntry) (rest : List AnalysisEntry),
      mgrC10.history = e :: rest → getAnyValidMoveForAutoPlay mgrC10 = some e) :=
  no_opponent_move_fallback mgrC10 2 rfl

/-- C3: every entry returned by getValidMovesForAutoPlay has a timestamp
strictly after the recorded opponent-move instant and depth exactly the
target depth; and whenever any entry postdates that instant, the entry
chosen by getAnyValidMoveForAutoPlay through its primary (non-fallback)
filter also postdates it — so entries timestamped before the opponent move
are never returned by either primary path even while still in history. -/
theorem temporal_isolation :
    (∀ (st : AnalysisManager) (d : Nat) (e : AnalysisEntry),
      e ∈ getValidMovesForAutoPlay st d →
      ∃ t, st.lastOpponentMoveTimestamp = some t ∧ t < e.timestamp ∧ e.depth = d)
  ∧ (∀ (st : AnalysisManager) (t : Nat) (e : AnalysisEntry),
      st.lastOpponentMoveTimestamp = some t →
      st.history.filter (fun x => decide (t < x.timestamp)) ≠ [] →
      getAnyValidMoveForAutoPlay st = some e →
      t < e.timestamp) := by
  constructor
  · intro st d e he
    unfold getValidMovesForAutoPlay at he
    cases hts : st.lastOpponentMoveTimestamp with
    | none =>
      rw [hts] at he
      simp at he
    | some t =>
      rw [hts] at he
      obtain ⟨-, hp⟩ := List.mem_filter.mp he
      simp at hp
      exact ⟨t, rfl, hp.1, hp.2⟩
  · intro st t e hts hne hres
    unfold getAnyValidMoveForAutoPlay at hres
    simp only [hts] at hres
    cases hf : st.history.filter (fun x => decide (t < x.timestamp)) with
    | nil => exact absurd hf hne
    | cons v vs =>
      simp only [hf] at hres
      have hmem : e ∈ sortEntries autoPlayPreference (v :: vs) :=
        List.mem_of_mem_head? hres
      have hin : e ∈ v :: vs := mem_sortEntries hmem
      rw [← hf] at hin
      have hp := (List.mem_filter.mp hin).2
      simpa using hp

/-- C3 witness: the concrete manager mgrC3 records the opponent move at
instant 10; the entry timestamped 20 at depth 5 is returned and indeed
postdates instant 10 with the exact depth. -/
theorem temporal_isolation_witness :
    entryAfter ∈ getValidMovesForAutoPlay mgrC3 5 ∧
    (∃ t, mgrC3.lastOpponentMoveTimestamp = some t ∧
      t < entryAfter.timestamp ∧ entryAfter.depth = 5) :=
  ⟨by decide, temporal_isolation.1 mgrC3 5 entryAfter (by decide)⟩

/-- C4: with autoplay enabled, executeAutoPlay (1) plays nothing and
disables autoplay when the game-over detector signals game over, (2)
otherwise plays the first depth-matched valid move when one exists, (3)
otherwise plays the fallback entry when present, (4) otherwise plays
nothing; and histories reachable by addEntry never contain an empty move,
so the non-empty-move guard never blocks a reachable selection. -/
theorem autoplay_selection_order :
    (∀ s : ChessAssistant, s.autoPlayActive = true →
      executeAutoPlay true s =
        (AutoPlayOutcome.gameOverDisable, { s with autoPlayActive := false }))
  ∧ (∀ (s : ChessAssistant) (e : AnalysisEntry) (rest : List AnalysisEntry),
      s.autoPlayActive = true →
      getValidMovesForAutoPlay s.analysisManager autoPlayDepth = e :: rest →
      e.move ≠ "" →
      (executeAutoPlay false s).1 = AutoPlayOutcome.execute e)
  ∧ (∀ (s : ChessAssistant) (e : AnalysisEntry),
      s.autoPlayActive = true →
      getValidMovesForAutoPlay s.analysisManager autoPlayDepth = [] →
      getAnyValidMoveForAutoPlay s.analysisManager = some e →
      e.move ≠ "" →
      (executeAutoPlay false s).1 = AutoPlayOutcome.execute e)
  ∧ (∀ s : ChessAssistant,
      s.autoPlayActive = true →
      getValidMovesForAutoPlay s.analysisManager autoPlayDepth = [] →
      getAnyValidMoveForAutoPlay s.analysisManager = none →
      (executeAutoPlay false s).1 = AutoPlayOutcome.noMove)
  ∧ (∀ (reqs : List AddRequest) (e : AnalysisEntry),
      e ∈ (runRequests initialManager reqs).history → e.move ≠ "") := by
  refine ⟨?_, ?_, ?_, ?_, ?_⟩
  · intro s h
    simp [executeAutoPlay, h]
  · intro s e rest h hv hm
    simp [executeAutoPlay, h, hv, hm]
  · intro s e h hv ha hm
    simp [executeAutoPlay, h, hv, ha, hm]
  · intro s h hv ha
    simp [executeAutoPlay, h, hv, ha]
  · intro reqs e he
    exact runRequests_moves_nonempty reqs initialManager (by simp [initialManager]) e he

/-- C4 witness: on the concrete activated assistant with autoplay enabled,
a game-over signal yields the disable outcome with no move played. -/
theorem autoplay_selection_order_witness :
    sC4.autoPlayActive = true ∧
    executeAutoPlay true sC4 =
      (AutoPlayOutcome.gameOverDisable, { sC4 with autoPlayActive := false }) :=
  ⟨rfl, autoplay_selection_order.1 sC4 rfl⟩

/-- C7: deactivate is idempotent — a second deactivate call reproduces the
same end state, and since the worker-termination and interval-clear
counters are part of that state, the second call performs no further
terminate or clear side effect; likewise EngineService.terminate is safe
to call any number of times. -/
theorem idempotent_deactivation :
    (∀ s : ChessAssistant, deactivate (deactivate s) = deactivate s)
  ∧ (∀ e : EngineService,
      EngineService.terminate (EngineService.terminate e) = EngineService.terminate e) := by
  constructor
  · intro s
    unfold deactivate stopBoardPolling clearHistory EngineService.terminate
    split_ifs <;> simp_all
  · intro e
    unfold EngineService.terminate
    split_ifs <;> simp_all

/-- C8 counterexample: the second handleBestMove variant, on the protocol
line with the no-move token, emits a bestmove event carrying that token
instead of emitting nothing. -/
theorem no_move_bestmove_emitted_cex :
    handleBestMoveNoGuard freshEngine ["bestmove", "(none)"] =
      ({ freshEngine with currentBestMove := some "(none)", state := EngineState.idle },
       some { bestMoveToken := some "(none)", score := none, depth := 0 }) := by
  decide

/-- C8 amended: the guarded first handleBestMove variant emits nothing and
changes nothing on a no-move, missing or empty token — so nothing reaches
the history from such a line — while the unguarded second variant emits a
bestmove event carrying the raw no-move token. -/
theorem no_move_bestmove_guarded (e : EngineService) :
    handleBestMove e ["bestmove", "(none)"] = (e, none) ∧
    handleBestMove e ["bestmove"] = (e, none) ∧
    handleBestMove e ["bestmove", ""] = (e, none) ∧
    (handleBestMoveNoGuard e ["bestmove", "(none)"]).2 =
      some { bestMoveToken := some "(none)", score := e.currentScore,
             depth := e.currentDepth } :=
  ⟨rfl, rfl, rfl, rfl⟩

/-- C1: on the freshly activated assistant, three consecutive engine info
events reporting the same move at depths 20, 21 and 22 make the third
addEntry call return rejected, leave the history unchanged — and yet no
stop message is ever posted to the engine worker: handleEngineUpdate
discards the rejection signal, so the stop required by the claim never
happens. -/
theorem repetition_cutoff_rejects_without_stop :
    (addEntry (processInfoEvent (processInfoEvent activatedAssistant "e2e4" 30 20 false 1)
        "e2e4" 31 21 false 2).analysisManager
      "e2e4" (some 32) 22 false 3).1 = false
  ∧ (processInfoEvent (processInfoEvent (processInfoEvent activatedAssistant
        "e2e4" 30 20 false 1) "e2e4" 31 21 false 2) "e2e4" 32 22 false 3).analysisManager.history =
      (processInfoEvent (processInfoEvent activatedAssistant "e2e4" 30 20 false 1)
        "e2e4" 31 21 false 2).analysisManager.history
  ∧ (processInfoEvent (processInfoEvent (processInfoEvent activatedAssistant
        "e2e4" 30 20 false 1) "e2e4" 31 21 false 2) "e2e4" 32 22 false 3).engine.stopMessages = 0 := by
  decide
